import Mathlib

/-!
# hello-pipeline: the cf-deploy step (`main.go`)

A shallow embedding of the Go program and the properties of its
configuration resolution, command construction, stream drain and
orchestration.

Go `string` values are modelled by `String`; the raw chunks read from a
subprocess pipe are modelled by lists of bytes.  The package-level variables
of the program are passed explicitly.
-/

namespace CfDeploy

/-! ## Library functions used by the program -/

/-- The environment of the process: a variable is either unset or has a value. -/
abbrev Env := String → Option String

/-- Go `os.Getenv`: the value of the variable, the empty string when it is unset. -/
def getenv (env : Env) (key : String) : String :=
  (env key).getD ""

/-- Go `strings.Split(s, " ")` on the characters of `s`: the maximal pieces
between the separators, one more piece than there are separators. -/
def splitSpaceChars : List Char → List (List Char)
  | [] => [[]]
  | c :: cs =>
    if c = ' ' then [] :: splitSpaceChars cs
    else
      match splitSpaceChars cs with
      | [] => [[c]]
      | w :: ws => (c :: w) :: ws

/-- Go `strings.Split(s, " ")`. -/
def stringsSplit (s : String) : List String :=
  (splitSpaceChars s.data).map String.mk

/-- Go `strings.Join(xs, " ")` on characters. -/
def joinSpaceChars : List (List Char) → List Char
  | [] => []
  | [w] => w
  | w :: v :: ws => w ++ ' ' :: joinSpaceChars (v :: ws)

/-- Go `strings.Join(xs, " ")`. -/
def stringsJoin (xs : List String) : String :=
  String.mk (joinSpaceChars (xs.map String.data))

/-- Number of space characters of a string. -/
def spaces (s : String) : Nat :=
  s.data.count ' '

/-! ## Configuration resolution -/

/-- The sentinel default of every flag. -/
def notSupplied : String := "<not-supplied>"

/-- Go `reconcileWithEnvironment`: the flag value unless it is the sentinel,
else the environment variable; a required field that resolves to the empty
string appends one message to the error list.  The package-level `errors`
is threaded through as the last argument and second result. -/
def reconcileWithEnvironment (env : Env) (orig envName : String) (required : Bool)
    (errors : List String) : String × List String :=
  let result := if orig = notSupplied then getenv env envName else orig
  if result.length = 0 ∧ required = true then
    (result, errors ++ [envName ++ " not supplied via flag or environment."])
  else
    (result, errors)

/-- Go `determinePushCommand`: resolves the optional image reference and,
when it is non-empty, splits the formatted command line at spaces.  Returns
the command, the resolved `dockerImage` and the error list. -/
def determinePushCommand (env : Env) (appname dockerImage : String)
    (errors : List String) : List String × String × List String :=
  let r := reconcileWithEnvironment env dockerImage "WERCKER_CF_DEPLOY_DOCKER_IMAGE" false errors
  let dockerImage := r.1
  if dockerImage.length > 0 then
    let commandString := "push " ++ appname ++ " -o " ++ dockerImage
    (stringsSplit commandString, dockerImage, r.2)
  else
    ([], dockerImage, r.2)

/-! ## The stream drain `takeDump` -/

/-- A chunk of raw bytes read from a pipe. -/
abbrev Chunk := List UInt8

/-- The result of one `pipe.Read(buf)`: the bytes `buf[:n]` and whether
`err != nil`.  The buffer has 1024 bytes, so `n` is at most 1024; nothing
below depends on that bound. -/
structure ReadResult where
  data : Chunk
  err : Bool
deriving DecidableEq, Repr

/-- A pipe as the reads it delivers: reads without an error, then one read
that returns an error (end of file or a failure), possibly with data. -/
structure Stream where
  body : List Chunk
  last : Chunk
deriving DecidableEq, Repr

/-- The successive results of `pipe.Read` on a stream. -/
def Stream.reads (s : Stream) : List ReadResult :=
  s.body.map (fun c => ⟨c, false⟩) ++ [⟨s.last, true⟩]

/-- Control points of the reading goroutine of `takeDump`. -/
inductive Reader where
  /-- About to call `Read` on a nil pipe. -/
  | atReadNil
  /-- About to call `pipe.Read(buf)`; the reads still to come. -/
  | atRead (rest : List ReadResult)
  /-- Blocked in `ch <- string(buf[:n])`. -/
  | atSend (s : Chunk) (err : Bool) (rest : List ReadResult)
  /-- At `if err != nil`. -/
  | atCheck (err : Bool) (rest : List ReadResult)
  /-- At `close(ch)`. -/
  | atClose
  /-- The goroutine has ended. -/
  | finished
  /-- The goroutine has panicked (nil dereference): the process is dead. -/
  | panicked
deriving DecidableEq, Repr

/-- Control points of the relay loop of `takeDump`. -/
inductive Relay where
  /-- Blocked in the `select`. -/
  | atSelect
  /-- At `fmt.Print(s)`. -/
  | atPrint (s : Chunk)
  /-- The loop was left: `takeDump` has returned. -/
  | returned
deriving DecidableEq, Repr

/-- State of a running `takeDump`: both control points, whether `ch` is
closed, whether a sender is waiting on `quit`, and the chunks printed. -/
structure DumpState where
  reader : Reader
  relay : Relay
  closed : Bool
  quit : Bool
  out : List Chunk
deriving DecidableEq, Repr

/-- Steps the reading goroutine can take. -/
def readerNext (st : DumpState) : List DumpState :=
  match st.reader with
  | .atReadNil => [{ st with reader := .panicked }]
  | .atRead [] => []
  | .atRead (r :: rest) =>
    if r.data.length ≠ 0 then [{ st with reader := .atSend r.data r.err rest }]
    else [{ st with reader := .atCheck r.err rest }]
  | .atSend s e rest =>
    if st.relay = .atSelect then [{ st with reader := .atCheck e rest, relay := .atPrint s }]
    else []
  | .atCheck e rest =>
    if e then [{ st with reader := .atClose }] else [{ st with reader := .atRead rest }]
  | .atClose => [{ st with reader := .finished, closed := true }]
  | .finished => []
  | .panicked => []

/-- Steps the relay loop can take on its own: leaving on a closed channel,
leaving on `quit`, printing the chunk received. -/
def relayNext (st : DumpState) : List DumpState :=
  match st.relay with
  | .atSelect =>
    (if st.closed then [{ st with relay := .returned }] else []) ++
    (if st.quit then [{ st with relay := .returned, quit := false }] else [])
  | .atPrint s => [{ st with relay := .atSelect, out := st.out ++ [s] }]
  | .returned => []

/-- All successors of a state; a panic ends the whole process. -/
def dumpNext (st : DumpState) : List DumpState :=
  if st.reader = .panicked then [] else readerNext st ++ relayNext st

/-- State at the call `takeDump(pipe, quit)`.  At both call sites `quit` is
freshly made and its only sender is spawned after `takeDump` returns. -/
def dumpInit (pipe : Option Stream) : DumpState :=
  { reader := match pipe with
      | none => .atReadNil
      | some s => .atRead s.reads
    relay := .atSelect
    closed := false
    quit := false
    out := [] }

/-- One step of a running `takeDump`. -/
def DumpStep (a b : DumpState) : Prop := b ∈ dumpNext a

/-- Reachability in a running `takeDump`. -/
def DumpReaches : DumpState → DumpState → Prop := Relation.ReflTransGen DumpStep

/-- The chunks the two loops pass through the unbuffered channel, in order:
every read with `n != 0`, up to and including the first read with an error. -/
def relayed : List ReadResult → List Chunk
  | [] => []
  | r :: rest =>
    (if r.data.length ≠ 0 then [r.data] else []) ++ (if r.err then [] else relayed rest)

/-- Go `takeDump`, sequentially: the chunks printed before it returns, or
`none` when the pipe is nil and the reading goroutine panics. -/
def takeDump (pipe : Option Stream) : Option (List Chunk) :=
  pipe.map (fun s => relayed s.reads)

/-! ## External processes and the run of `main` -/

/-- An external command: executable and arguments. -/
structure Cmd where
  name : String
  args : List String
deriving DecidableEq, Repr

/-- What the program does that is visible from outside. -/
inductive Event where
  /-- Text written by `fmt.Println` or `fmt.Printf`. -/
  | print (s : String)
  /-- A chunk written by the `fmt.Print` of `takeDump`. -/
  | relay (c : Chunk)
  /-- Call of `Cmd.Run`. -/
  | run (c : Cmd)
  /-- Call of `Cmd.StdoutPipe`. -/
  | stdoutPipe (c : Cmd)
  /-- Call of `Cmd.Start`. -/
  | start (c : Cmd)
  /-- Call of `takeDump` on the pipe of the command. -/
  | drain (c : Cmd)
  /-- Call of `Cmd.Wait`. -/
  | wait (c : Cmd)
deriving DecidableEq, Repr

/-- How the process ends: `os.Exit(code)` or a runtime panic. -/
inductive Outcome where
  | exit (code : Nat)
  | panic
deriving DecidableEq, Repr

/-- A run of the program: its events in order and how it ended. -/
structure Run where
  events : List Event
  outcome : Outcome
deriving DecidableEq, Repr

/-- Outcomes of the calls on one piped subprocess; an error carries its text. -/
structure ProcWorld where
  pipeErr : Option String
  startErr : Option String
  output : Stream
  waitErr : Option String

/-- Outcomes of all external calls of a run. -/
structure World where
  download : Option String
  extract : Option String
  login : ProcWorld
  deploy : ProcWorld

/-- Go `Cmd.Wait`: on a command whose `Start` failed it returns the error
`exec: not started`; otherwise the outcome of the process. -/
def ProcWorld.wait (p : ProcWorld) : Option String :=
  match p.startErr with
  | some _ => some "exec: not started"
  | none => p.waitErr

/-- The flag variables after `flag.Parse`; a flag not given holds `notSupplied`. -/
structure Flags where
  api : String
  usr : String
  pwd : String
  org : String
  spc : String
  appname : String
  dockerImage : String
deriving DecidableEq, Repr

/-- The package-level variables of the program. -/
structure Globals where
  api : String
  usr : String
  pwd : String
  org : String
  spc : String
  appname : String
  errors : List String
  dockerImage : String
deriving DecidableEq, Repr

/-- Lines 41 to 49 of `main`: the six required fields are resolved in turn. -/
def resolve (f : Flags) (env : Env) : Globals :=
  let errors : List String := []
  let r1 := reconcileWithEnvironment env f.api "WERCKER_CF_DEPLOY_API" true errors
  let r2 := reconcileWithEnvironment env f.usr "WERCKER_CF_DEPLOY_USER" true r1.2
  let r3 := reconcileWithEnvironment env f.pwd "WERCKER_CF_DEPLOY_PASSWORD" true r2.2
  let r4 := reconcileWithEnvironment env f.org "WERCKER_CF_DEPLOY_ORG" true r3.2
  let r5 := reconcileWithEnvironment env f.spc "WERCKER_CF_DEPLOY_SPACE" true r4.2
  let r6 := reconcileWithEnvironment env f.appname "WERCKER_CF_DEPLOY_APPNAME" true r5.2
  { api := r1.1, usr := r2.1, pwd := r3.1, org := r4.1, spc := r5.1, appname := r6.1,
    errors := r6.2, dockerImage := f.dockerImage }

/-- The download command of `installCF`. -/
def downloadCommand : Cmd :=
  ⟨"wget", ["-O", "cf.tgz", "https://cli.run.pivotal.io/stable?release=linux64-binary"]⟩

/-- The unpack command of `installCF`. -/
def unzipCommand : Cmd :=
  ⟨"tar", ["-zxf", "cf.tgz"]⟩

/-- The command of `loginCF`. -/
def loginCommand (g : Globals) : Cmd :=
  ⟨"cf", ["login", "-a", g.api, "-u", g.usr, "-p", g.pwd, "-o", g.org, "-s", g.spc]⟩

/-- The command of the deploy stage of `main`. -/
def deployCommand (pushCommand : List String) : Cmd :=
  ⟨"cf", pushCommand⟩

/-- Go `installCF`: its events and its result. -/
def installCF (w : World) : List Event × Bool :=
  match w.download with
  | some e => ([.run downloadCommand, .print ("Error retrieving cf binary: " ++ e)], false)
  | none =>
    match w.extract with
    | some e =>
      ([.run downloadCommand, .run unzipCommand, .print ("Error unpacking cf binary: " ++ e)],
        false)
    | none => ([.run downloadCommand, .run unzipCommand], true)

/-- Go `loginCF`: its events and its result, `none` when the process
panicked before a result was returned.  The goroutine spawned after `Wait`
to send on `quit` finds no receiver and has no effect. -/
def loginCF (g : Globals) (w : World) : List Event × Option Bool :=
  let cmd := loginCommand g
  match w.login.pipeErr with
  | some e =>
    ([.stdoutPipe cmd, .print ("Error connecting command output to STDOUT: " ++ e)], some false)
  | none =>
    match w.login.startErr with
    | some e =>
      ([.stdoutPipe cmd, .start cmd, .print ("Error executing CF login command: " ++ e)],
        some false)
    | none =>
      let ev := [Event.stdoutPipe cmd, .start cmd, .drain cmd]
      match takeDump (some w.login.output) with
      | none => (ev, none)
      | some chunks =>
        let ev := ev ++ chunks.map Event.relay ++ [.wait cmd]
        match w.login.wait with
        | some e => (ev ++ [.print ("Error logging in to CF: " ++ e ++ "\n")], some false)
        | none => (ev, some true)

/-- Lines 81 to 101 of `main`: the deploy stage.  A failure of `StdoutPipe`
or `Start` is printed and the stage goes on. -/
def deployStage (pushCommand : List String) (p : ProcWorld) : Run :=
  let cmd := deployCommand pushCommand
  let ev := [Event.print "Deploying app...\n", .stdoutPipe cmd]
  let ev := match p.pipeErr with
    | some e => ev ++ [.print ("Error writing output to STDOUT: " ++ e)]
    | none => ev
  let out : Option Stream := match p.pipeErr with
    | some _ => none
    | none => some p.output
  let ev := ev ++ [.start cmd]
  let ev := match p.startErr with
    | some e => ev ++ [.print ("Error executing command: " ++ e)]
    | none => ev
  let ev := ev ++ [.drain cmd]
  match takeDump out with
  | none => ⟨ev, .panic⟩
  | some chunks =>
    let ev := ev ++ chunks.map Event.relay ++ [.wait cmd]
    match p.wait with
    | some e => ⟨ev ++ [.print ("ERROR OCCURRED: " ++ e ++ "\n")], .exit 1⟩
    | none => ⟨ev ++ [.print "SUCCESS.\n"], .exit 0⟩

/-- Lines 71 to 101 of `main`: command build, then the deploy stage. -/
def buildAndDeploy (g : Globals) (env : Env) (w : World) : Run :=
  let r := determinePushCommand env g.appname g.dockerImage g.errors
  let pushCommand := r.1
  let ev := [Event.print "Generating cf push command...\n"]
  if pushCommand.length = 0 then
    ⟨ev ++ [.print "Error: Push command not created.\n",
        .print ("API: " ++ g.api ++ "\nUSR: " ++ g.usr ++ "\nPWD: " ++ g.pwd ++ "\nORG: "
          ++ g.org ++ "\nSPC: " ++ g.spc ++ "\n")],
      .exit 1⟩
  else
    let cmdString := stringsJoin pushCommand
    let ev := ev ++ [.print ("Generated Command: cf " ++ cmdString ++ "\n")]
    let d := deployStage pushCommand w.deploy
    ⟨ev ++ d.events, d.outcome⟩

/-- Go `main`, from the parsed flags, the environment and the outcomes of
the external calls. -/
def main (f : Flags) (env : Env) (w : World) : Run :=
  let g := resolve f env
  if g.errors.length > 0 then
    ⟨g.errors.map (fun v => Event.print (v ++ "\n")), .exit 1⟩
  else
    let ev := [Event.print "Downloading and installing CF CLI...\n"]
    let i := installCF w
    if i.2 = false then
      ⟨ev ++ i.1 ++ [.print "Unable to install CF CLI.\n"], .exit 1⟩
    else
      let ev := ev ++ i.1 ++ [.print "CF CLI installed.\n", .print "Logging in to Cloud Foundry...\n"]
      let l := loginCF g w
      match l.2 with
      | none => ⟨ev ++ l.1, .panic⟩
      | some false => ⟨ev ++ l.1 ++ [.print "Unable to log in to Cloud Foundry.\n"], .exit 1⟩
      | some true =>
        let b := buildAndDeploy g env w
        ⟨ev ++ l.1 ++ b.events, b.outcome⟩

/-- The command an event launches, if it is a call of `Run` or `Start`. -/
def launchOf : Event → Option Cmd
  | .run c => some c
  | .start c => some c
  | _ => none

/-- The external commands on which a run calls `Run` or `Start`, in order. -/
def started (r : Run) : List Cmd :=
  r.events.filterMap launchOf

/-! ## Names used in the statements -/

/-- The message recorded for a required field that resolves to the empty string. -/
def missingMessage (envName : String) : String :=
  envName ++ " not supplied via flag or environment."

/-- The six required flags with their environment variables, in the order
in which `main` resolves them. -/
def requiredFields (f : Flags) : List (String × String) :=
  [(f.api, "WERCKER_CF_DEPLOY_API"), (f.usr, "WERCKER_CF_DEPLOY_USER"),
   (f.pwd, "WERCKER_CF_DEPLOY_PASSWORD"), (f.org, "WERCKER_CF_DEPLOY_ORG"),
   (f.spc, "WERCKER_CF_DEPLOY_SPACE"), (f.appname, "WERCKER_CF_DEPLOY_APPNAME")]

/-- One message for each required field whose resolved value is empty, in field order. -/
def missingMessages (f : Flags) (env : Env) : List String :=
  (requiredFields f).filterMap fun p =>
    if (reconcileWithEnvironment env p.1 p.2 true []).1 = "" then some (missingMessage p.2)
    else none

/-- An environment that sets the API variable only. -/
def sampleEnv : Env := fun k =>
  if k = "WERCKER_CF_DEPLOY_API" then some "https://api.example.com" else none

/-- The empty environment. -/
def emptyEnv : Env := fun _ => none

/-- Flags that supply every field. -/
def sampleFlags : Flags :=
  ⟨"https://api.example.com", "user", "secret", "org", "space", "myapp", "registry/myapp:latest"⟩

/-- A subprocess that starts, writes `hi`, an empty read and a newline, and exits with 0. -/
def sampleProc : ProcWorld :=
  ⟨none, none, ⟨[[104, 105], [], [10]], []⟩, none⟩

/-- A world in which every external call succeeds. -/
def sampleWorld : World :=
  ⟨none, none, sampleProc, sampleProc⟩

/-- A world in which obtaining the stdout pipe of the deploy command fails. -/
def pipeFailWorld : World :=
  { sampleWorld with deploy := { sampleProc with pipeErr := some "pipe: too many open files" } }

/-- A world in which starting the deploy command fails; the read end of its
pipe is closed by the failed start, so the only read returns an error. -/
def startFailWorld : World :=
  { sampleWorld with
    deploy := ⟨none, some "fork/exec cf: permission denied", ⟨[], []⟩, none⟩ }

/-- Every stage before the deploy stage succeeds and a command is built. -/
def ReachesDeploy (f : Flags) (env : Env) (w : World) : Prop :=
  (resolve f env).errors = [] ∧ w.download = none ∧ w.extract = none ∧
  w.login.pipeErr = none ∧ w.login.startErr = none ∧ w.login.waitErr = none ∧
  (determinePushCommand env (resolve f env).appname (resolve f env).dockerImage
    (resolve f env).errors).1 ≠ []

/-! ## Invariant and progress measure of a running `takeDump` -/

/-- Chunks the reading goroutine has yet to hand over. -/
def readerPending : Reader → List Chunk
  | .atRead rest => relayed rest
  | .atSend s e rest => s :: (if e then [] else relayed rest)
  | .atCheck e rest => if e then [] else relayed rest
  | _ => []

/-- The chunk the relay loop has received and not yet printed. -/
def relayPending : Relay → List Chunk
  | .atPrint s => [s]
  | _ => []

/-- The reader works on a pipe that is not nil and whose reads end in an error. -/
def readerOk : Reader → Bool
  | .atReadNil => false
  | .panicked => false
  | .atRead rest => rest.any (fun r => r.err)
  | .atSend _ e rest => e || rest.any (fun r => r.err)
  | .atCheck e rest => e || rest.any (fun r => r.err)
  | .atClose => true
  | .finished => true

/-- Invariant of the states reached by `takeDump` on a pipe whose chunks to
relay are `target`. -/
structure DumpInv (target : List Chunk) (st : DumpState) : Prop where
  out_eq : st.out ++ relayPending st.relay ++ readerPending st.reader = target
  quit_eq : st.quit = false
  ok : readerOk st.reader = true
  closed_iff : st.closed = true ↔ st.reader = .finished
  returned_closed : st.relay = .returned → st.closed = true

/-- Steps the reading goroutine still has to take, at most. -/
def readerMeasure : Reader → Nat
  | .atReadNil => 1
  | .atRead rest => 3 * rest.length + 2
  | .atSend _ _ rest => 3 * rest.length + 4
  | .atCheck _ rest => 3 * rest.length + 3
  | .atClose => 1
  | .finished => 0
  | .panicked => 0

/-- Steps the relay loop still has to take on its own, at most. -/
def relayMeasure : Relay → Nat
  | .atSelect => 1
  | .atPrint _ => 2
  | .returned => 0

/-- A bound on the number of steps left, decreasing with every step. -/
def dumpMeasure (st : DumpState) : Nat :=
  2 * readerMeasure st.reader + relayMeasure st.relay

/-! ## Facts about splitting and joining -/

theorem splitSpaceChars_ne_nil (l : List Char) : splitSpaceChars l ≠ [] := by
  cases l with
  | nil => simp [splitSpaceChars]
  | cons c cs =>
    unfold splitSpaceChars
    split
    · simp
    · split <;> simp

theorem length_splitSpaceChars (l : List Char) :
    (splitSpaceChars l).length = l.count ' ' + 1 := by
  induction l with
  | nil => simp [splitSpaceChars]
  | cons c cs ih =>
    unfold splitSpaceChars
    by_cases hc : c = ' '
    · subst hc
      simp [ih]
    · have hne : splitSpaceChars cs ≠ [] := splitSpaceChars_ne_nil cs
      rw [if_neg hc]
      cases hs : splitSpaceChars cs with
      | nil => exact absurd hs hne
      | cons w ws =>
        rw [hs] at ih
        simp only [List.length_cons] at ih ⊢
        rw [List.count_cons_of_ne (Ne.symm hc)]
        exact ih

theorem joinSpaceChars_cons (w : List Char) (ws : List (List Char)) (h : ws ≠ []) :
    joinSpaceChars (w :: ws) = w ++ ' ' :: joinSpaceChars ws := by
  cases ws with
  | nil => exact absurd rfl h
  | cons v vs => rfl

theorem joinSpaceChars_splitSpaceChars (l : List Char) :
    joinSpaceChars (splitSpaceChars l) = l := by
  induction l with
  | nil => rfl
  | cons c cs ih =>
    unfold splitSpaceChars
    by_cases hc : c = ' '
    · subst hc
      rw [if_pos rfl, joinSpaceChars_cons _ _ (splitSpaceChars_ne_nil cs), ih]
      rfl
    · rw [if_neg hc]
      cases hs : splitSpaceChars cs with
      | nil => exact absurd hs (splitSpaceChars_ne_nil cs)
      | cons w ws =>
        rw [hs] at ih
        cases ws with
        | nil =>
          simp only [joinSpaceChars] at ih ⊢
          rw [ih]
        | cons v vs =>
          simp only [joinSpaceChars] at ih ⊢
          rw [← ih]
          rfl

theorem splitSpaceChars_of_not_mem (l : List Char) (h : ' ' ∉ l) :
    splitSpaceChars l = [l] := by
  induction l with
  | nil => rfl
  | cons c cs ih =>
    have hc : c ≠ ' ' := fun e => h (by simp [e])
    have hcs : ' ' ∉ cs := fun e => h (List.mem_cons_of_mem _ e)
    unfold splitSpaceChars
    rw [if_neg hc, ih hcs]

theorem splitSpaceChars_append_space (a b : List Char) (h : ' ' ∉ a) :
    splitSpaceChars (a ++ ' ' :: b) = a :: splitSpaceChars b := by
  induction a with
  | nil => simp [splitSpaceChars]
  | cons c cs ih =>
    have hc : c ≠ ' ' := fun e => h (by simp [e])
    have hcs : ' ' ∉ cs := fun e => h (List.mem_cons_of_mem _ e)
    have e : splitSpaceChars (c :: (cs ++ ' ' :: b))
        = match splitSpaceChars (cs ++ ' ' :: b) with
          | [] => [[c]]
          | w :: ws => (c :: w) :: ws := by
      rw [splitSpaceChars, if_neg hc]
    rw [List.cons_append, e, ih hcs]

theorem stringsSplit_ne_nil (s : String) : stringsSplit s ≠ [] := by
  unfold stringsSplit
  intro h
  exact splitSpaceChars_ne_nil s.data (List.map_eq_nil_iff.mp h)

theorem length_stringsSplit (s : String) : (stringsSplit s).length = spaces s + 1 := by
  unfold stringsSplit spaces
  rw [List.length_map, length_splitSpaceChars]

theorem stringsJoin_stringsSplit (s : String) : stringsJoin (stringsSplit s) = s := by
  unfold stringsJoin stringsSplit
  have hmap : List.map String.data (List.map String.mk (splitSpaceChars s.data))
      = splitSpaceChars s.data := by
    rw [List.map_map]
    conv_rhs => rw [← List.map_id (splitSpaceChars s.data)]
    apply List.map_congr_left
    intro a _
    rfl
  rw [hmap, joinSpaceChars_splitSpaceChars]

/-- The formatted command line `push <appname> -o <image>` on characters. -/
theorem commandString_data (appname dockerImage : String) :
    ("push " ++ appname ++ " -o " ++ dockerImage).data
      = 'p' :: 'u' :: 's' :: 'h' :: ' ' :: (appname.data ++ ' ' :: '-' :: 'o' :: ' ' :: dockerImage.data) := by
  simp only [String.data_append, List.append_assoc]
  rfl

theorem spaces_commandString (appname dockerImage : String) :
    spaces ("push " ++ appname ++ " -o " ++ dockerImage)
      = 3 + spaces appname + spaces dockerImage := by
  unfold spaces
  rw [commandString_data]
  simp [List.count_cons, List.count_append]
  omega

theorem stringsSplit_commandString (appname dockerImage : String) :
    stringsSplit ("push " ++ appname ++ " -o " ++ dockerImage)
      = "push" :: (splitSpaceChars (appname.data ++ ' ' :: '-' :: 'o' :: ' ' :: dockerImage.data)).map String.mk := by
  unfold stringsSplit
  rw [commandString_data]
  have h := splitSpaceChars_append_space ['p', 'u', 's', 'h']
    (appname.data ++ ' ' :: '-' :: 'o' :: ' ' :: dockerImage.data) (by decide)
  simp only [List.cons_append, List.nil_append] at h
  rw [h]
  rfl

/-- Without spaces in the two values the command has the four intended arguments. -/
theorem stringsSplit_commandString_of_no_space (appname dockerImage : String)
    (ha : ' ' ∉ appname.data) (hd : ' ' ∉ dockerImage.data) :
    stringsSplit ("push " ++ appname ++ " -o " ++ dockerImage)
      = ["push", appname, "-o", dockerImage] := by
  rw [stringsSplit_commandString]
  rw [splitSpaceChars_append_space _ _ ha]
  have h := splitSpaceChars_append_space ['-', 'o'] dockerImage.data (by decide)
  simp only [List.cons_append, List.nil_append] at h
  rw [h, splitSpaceChars_of_not_mem _ hd]
  rfl

/-- The resolved value of `reconcileWithEnvironment`. -/
theorem reconcile_fst (env : Env) (orig envName : String) (required : Bool)
    (errors : List String) :
    (reconcileWithEnvironment env orig envName required errors).1
      = if orig = notSupplied then getenv env envName else orig := by
  unfold reconcileWithEnvironment
  simp only [apply_ite Prod.fst, ite_self]

/-- An optional field never touches the error list. -/
theorem reconcile_snd_optional (env : Env) (orig envName : String) (errors : List String) :
    (reconcileWithEnvironment env orig envName false errors).2 = errors := by
  unfold reconcileWithEnvironment
  simp

theorem length_eq_zero_iff (s : String) : s.length = 0 ↔ s = "" := by
  constructor
  · intro h
    apply String.ext
    exact List.length_eq_zero.mp h
  · intro h
    subst h
    rfl

/-! ## The stream drain -/

theorem relayed_reads (body : List Chunk) (last : Chunk) :
    relayed (Stream.reads ⟨body, last⟩) = (body ++ [last]).filter (fun c => c ≠ []) := by
  induction body with
  | nil =>
    cases last <;> simp [Stream.reads, relayed]
  | cons c cs ih =>
    simp only [Stream.reads, List.map_cons, List.cons_append] at ih ⊢
    cases c <;> simp [relayed, ih]

theorem flatten_filter_ne_nil (l : List Chunk) :
    (l.filter (fun c => c ≠ [])).flatten = l.flatten := by
  induction l with
  | nil => rfl
  | cons c cs ih =>
    cases c with
    | nil => simpa using ih
    | cons b bs =>
      simp only [ne_eq, decide_not] at ih
      simp [ih]

theorem any_err_reads (s : Stream) : s.reads.any (fun r => r.err) = true := by
  simp [Stream.reads]

theorem dumpInv_init (s : Stream) : DumpInv (relayed s.reads) (dumpInit (some s)) := by
  refine ⟨?_, rfl, ?_, ?_, ?_⟩
  · simp [dumpInit, relayPending, readerPending]
  · exact any_err_reads s
  · simp [dumpInit]
  · simp [dumpInit]

theorem dumpInv_readerNext (target : List Chunk) (a b : DumpState)
    (h : DumpInv target a) (hs : b ∈ readerNext a) : DumpInv target b := by
  obtain ⟨ra, la, ca, qa, oa⟩ := a
  obtain ⟨h1, h2, h3, h4, h5⟩ := h
  simp only at h1 h2 h3 h4 h5
  cases ra with
  | atReadNil => simp [readerOk] at h3
  | panicked => simp [readerOk] at h3
  | finished => simp [readerNext] at hs
  | atClose =>
    simp only [readerNext, List.mem_singleton] at hs
    subst hs
    exact ⟨by simpa [readerPending] using h1, h2, rfl, by simp, by simp⟩
  | atCheck e rest =>
    cases e with
    | true =>
      simp only [readerNext, if_true, List.mem_singleton] at hs
      subst hs
      exact ⟨by simpa [readerPending] using h1, h2, rfl, by simpa using h4, h5⟩
    | false =>
      simp only [readerNext, Bool.false_eq_true, if_false, List.mem_singleton] at hs
      subst hs
      exact ⟨by simpa [readerPending] using h1, h2, by simpa [readerOk] using h3,
        by simpa using h4, h5⟩
  | atSend s e rest =>
    cases la with
    | atSelect =>
      simp only [readerNext, if_true, List.mem_singleton] at hs
      subst hs
      exact ⟨by simpa [readerPending, relayPending] using h1, h2, by simpa [readerOk] using h3,
        by simpa using h4, by simp⟩
    | atPrint s2 => simp [readerNext] at hs
    | returned => simp [readerNext] at hs
  | atRead rest =>
    cases rest with
    | nil => simp [readerNext] at hs
    | cons r rest =>
      by_cases hr : r.data.length ≠ 0
      · simp only [readerNext, if_pos hr, List.mem_singleton] at hs
        subst hs
        refine ⟨?_, h2, by simpa [readerOk] using h3, by simpa using h4, h5⟩
        simpa [readerPending, relayed, hr] using h1
      · simp only [readerNext, if_neg hr, List.mem_singleton] at hs
        subst hs
        refine ⟨?_, h2, by simpa [readerOk] using h3, by simpa using h4, h5⟩
        simpa [readerPending, relayed, hr] using h1

theorem dumpInv_relayNext (target : List Chunk) (a b : DumpState)
    (h : DumpInv target a) (hs : b ∈ relayNext a) : DumpInv target b := by
  obtain ⟨ra, la, ca, qa, oa⟩ := a
  obtain ⟨h1, h2, h3, h4, h5⟩ := h
  simp only at h1 h2 h3 h4 h5
  subst h2
  cases la with
  | returned => simp [relayNext] at hs
  | atPrint s =>
    simp only [relayNext, List.mem_singleton] at hs
    subst hs
    exact ⟨by simpa [relayPending] using h1, rfl, h3, h4, by simp⟩
  | atSelect =>
    simp only [relayNext, Bool.false_eq_true, if_false, List.append_nil] at hs
    cases ca with
    | false => simp at hs
    | true =>
      simp only [if_true, List.mem_singleton] at hs
      subst hs
      exact ⟨by simpa [relayPending] using h1, rfl, h3, h4, by simp⟩

theorem dumpInv_step (target : List Chunk) (a b : DumpState)
    (h : DumpInv target a) (hs : DumpStep a b) : DumpInv target b := by
  unfold DumpStep dumpNext at hs
  split at hs
  · simp at hs
  · rcases List.mem_append.mp hs with hr | hl
    · exact dumpInv_readerNext target a b h hr
    · exact dumpInv_relayNext target a b h hl

theorem dumpInv_reaches (target : List Chunk) (a b : DumpState)
    (h : DumpInv target a) (hr : DumpReaches a b) : DumpInv target b := by
  induction hr with
  | refl => exact h
  | tail _ hstep ih => exact dumpInv_step target _ _ ih hstep

/-- A state that satisfies the invariant and has returned has printed everything. -/
theorem dumpInv_returned (target : List Chunk) (st : DumpState)
    (h : DumpInv target st) (hret : st.relay = .returned) : st.out = target := by
  have hc := h.returned_closed hret
  have hf := h.closed_iff.mp hc
  have h1 := h.out_eq
  rw [hret, hf] at h1
  simpa [relayPending, readerPending] using h1

/-- Every step decreases the measure. -/
theorem dumpMeasure_step (a b : DumpState) (hs : DumpStep a b) :
    dumpMeasure b < dumpMeasure a := by
  obtain ⟨ra, la, ca, qa, oa⟩ := a
  unfold DumpStep dumpNext at hs
  split at hs
  · simp at hs
  · rcases List.mem_append.mp hs with hr | hl
    · cases ra with
      | atReadNil =>
        simp only [readerNext, List.mem_singleton] at hr
        subst hr
        simp [dumpMeasure, readerMeasure]
      | panicked => simp [readerNext] at hr
      | finished => simp [readerNext] at hr
      | atClose =>
        simp only [readerNext, List.mem_singleton] at hr
        subst hr
        simp [dumpMeasure, readerMeasure]
      | atCheck e rest =>
        cases e with
        | true =>
          simp only [readerNext, if_true, List.mem_singleton] at hr
          subst hr
          simp [dumpMeasure, readerMeasure]
          omega
        | false =>
          simp only [readerNext, Bool.false_eq_true, if_false, List.mem_singleton] at hr
          subst hr
          simp [dumpMeasure, readerMeasure]
      | atSend s e rest =>
        cases la with
        | atSelect =>
          simp only [readerNext, if_true, List.mem_singleton] at hr
          subst hr
          simp [dumpMeasure, readerMeasure, relayMeasure]
          omega
        | atPrint s2 => simp [readerNext] at hr
        | returned => simp [readerNext] at hr
      | atRead rest =>
        cases rest with
        | nil => simp [readerNext] at hr
        | cons r rest =>
          by_cases hd : r.data.length ≠ 0
          · simp only [readerNext, if_pos hd, List.mem_singleton] at hr
            subst hr
            simp [dumpMeasure, readerMeasure]
            omega
          · simp only [readerNext, if_neg hd, List.mem_singleton] at hr
            subst hr
            simp [dumpMeasure, readerMeasure]
            omega
    · cases la with
      | returned => simp [relayNext] at hl
      | atPrint s =>
        simp only [relayNext, List.mem_singleton] at hl
        subst hl
        simp [dumpMeasure, relayMeasure]
      | atSelect =>
        simp only [relayNext, List.mem_append] at hl
        rcases hl with hl | hl
        · split at hl
          · simp only [List.mem_singleton] at hl
            subst hl
            simp [dumpMeasure, relayMeasure]
          · simp at hl
        · split at hl
          · simp only [List.mem_singleton] at hl
            subst hl
            simp [dumpMeasure, relayMeasure]
          · simp at hl

/-- A state that satisfies the invariant and has not returned can step. -/
theorem dumpInv_progress (target : List Chunk) (st : DumpState)
    (h : DumpInv target st) (hret : st.relay ≠ .returned) : dumpNext st ≠ [] := by
  obtain ⟨ra, la, ca, qa, oa⟩ := st
  obtain ⟨h1, h2, h3, h4, h5⟩ := h
  simp only at h1 h2 h3 h4 h5 hret
  cases ra with
  | atReadNil => simp [readerOk] at h3
  | panicked => simp [readerOk] at h3
  | atClose => simp [dumpNext, readerNext]
  | atCheck e rest => cases e <;> simp [dumpNext, readerNext]
  | atRead rest =>
    cases rest with
    | nil => simp [readerOk] at h3
    | cons r rest =>
      by_cases hd : r.data.length ≠ 0
      · simp [dumpNext, readerNext, hd]
      · simp [dumpNext, readerNext, hd]
  | atSend s e rest =>
    cases la with
    | atSelect => simp [dumpNext, readerNext]
    | atPrint s2 => simp [dumpNext, readerNext, relayNext]
    | returned => exact absurd rfl hret
  | finished =>
    have hc : ca = true := h4.mpr rfl
    subst hc
    cases la with
    | atSelect => simp [dumpNext, readerNext, relayNext]
    | atPrint s2 => simp [dumpNext, readerNext, relayNext]
    | returned => exact absurd rfl hret

/-- From a state that satisfies the invariant `takeDump` does return. -/
theorem dumpInv_returns (target : List Chunk) (n : Nat) (st : DumpState)
    (h : DumpInv target st) (hn : dumpMeasure st ≤ n) :
    ∃ t, DumpReaches st t ∧ t.relay = .returned := by
  induction n generalizing st with
  | zero =>
    by_cases hret : st.relay = .returned
    · exact ⟨st, Relation.ReflTransGen.refl, hret⟩
    · exfalso
      have hp := dumpInv_progress target st h hret
      obtain ⟨u, hu⟩ := List.exists_mem_of_ne_nil _ hp
      have := dumpMeasure_step st u hu
      omega
  | succ n ih =>
    by_cases hret : st.relay = .returned
    · exact ⟨st, Relation.ReflTransGen.refl, hret⟩
    · have hp := dumpInv_progress target st h hret
      obtain ⟨u, hu⟩ := List.exists_mem_of_ne_nil _ hp
      have hlt := dumpMeasure_step st u hu
      obtain ⟨t, ht, htr⟩ := ih u (dumpInv_step target st u h hu) (by omega)
      exact ⟨t, Relation.ReflTransGen.head hu ht, htr⟩

/-! ## Configuration resolution -/

/-- C1: the value returned by `reconcileWithEnvironment` is the flag value
itself whenever the flag differs from the sentinel, whatever the environment
holds (also for the empty flag), and is the value of the environment
variable when the flag is the sentinel. -/
theorem reconcile_flag_takes_precedence (env : Env) (orig envName : String)
    (required : Bool) (errors : List String) :
    (orig ≠ notSupplied →
      (reconcileWithEnvironment env orig envName required errors).1 = orig) ∧
    (orig = notSupplied →
      (reconcileWithEnvironment env orig envName required errors).1 = getenv env envName) := by
  rw [reconcile_fst]
  constructor
  · intro h
    rw [if_neg h]
  · intro h
    rw [if_pos h]

/-- Witness of C1: an empty flag wins over a set variable, the sentinel
yields the variable. -/
theorem reconcile_flag_takes_precedence_witness :
    (reconcileWithEnvironment sampleEnv "" "WERCKER_CF_DEPLOY_API" true []).1 = "" ∧
    (reconcileWithEnvironment sampleEnv notSupplied "WERCKER_CF_DEPLOY_API" true []).1
      = getenv sampleEnv "WERCKER_CF_DEPLOY_API" :=
  ⟨(reconcile_flag_takes_precedence sampleEnv "" "WERCKER_CF_DEPLOY_API" true []).1 (by decide),
   (reconcile_flag_takes_precedence sampleEnv notSupplied "WERCKER_CF_DEPLOY_API" true []).2 rfl⟩

theorem reconcile_snd (env : Env) (orig envName : String) (required : Bool)
    (errors : List String) :
    (reconcileWithEnvironment env orig envName required errors).2
      = if (reconcileWithEnvironment env orig envName required errors).1 = "" ∧ required = true
        then errors ++ [missingMessage envName] else errors := by
  rw [reconcile_fst]
  unfold reconcileWithEnvironment missingMessage
  simp only [length_eq_zero_iff, apply_ite Prod.snd]

/-- C2: `reconcileWithEnvironment` appends exactly one message, the name of
the variable followed by the fixed text, if and only if the resolved value
is empty and the field is required; otherwise the error list is unchanged.
The prior entries stay in place in both cases. -/
theorem reconcile_error_list (env : Env) (orig envName : String) (required : Bool)
    (errors : List String) :
    ((reconcileWithEnvironment env orig envName required errors).2
        = errors ++ [envName ++ " not supplied via flag or environment."]
      ↔ ((reconcileWithEnvironment env orig envName required errors).1 = "" ∧ required = true)) ∧
    ((reconcileWithEnvironment env orig envName required errors).2 = errors
      ↔ ¬ ((reconcileWithEnvironment env orig envName required errors).1 = "" ∧ required = true)) ∧
    errors <+: (reconcileWithEnvironment env orig envName required errors).2 := by
  rw [reconcile_snd]
  by_cases h : (reconcileWithEnvironment env orig envName required errors).1 = "" ∧ required = true
  · rw [if_pos h]
    refine ⟨⟨fun _ => h, fun _ => rfl⟩, ⟨fun e => ?_, fun e => absurd h e⟩, List.prefix_append _ _⟩
    have := congrArg List.length e
    simp at this
  · rw [if_neg h]
    refine ⟨⟨fun e => ?_, fun e => absurd e h⟩, ⟨fun _ => h, fun _ => rfl⟩, List.prefix_refl _⟩
    have := congrArg List.length e
    simp at this

theorem reconcile_fst_errors (env : Env) (orig envName : String) (required : Bool)
    (errors : List String) :
    (reconcileWithEnvironment env orig envName required errors).1
      = (reconcileWithEnvironment env orig envName required []).1 := by
  rw [reconcile_fst, reconcile_fst]

theorem reconcile_snd_required (env : Env) (orig envName : String) (errors : List String) :
    (reconcileWithEnvironment env orig envName true errors).2
      = errors ++ (if (reconcileWithEnvironment env orig envName true []).1 = ""
          then [missingMessage envName] else []) := by
  rw [reconcile_snd, reconcile_fst_errors]
  by_cases h : (reconcileWithEnvironment env orig envName true []).1 = ""
  · simp [h]
  · simp [h]

theorem resolve_errors (f : Flags) (env : Env) :
    (resolve f env).errors = missingMessages f env := by
  unfold resolve missingMessages requiredFields
  simp only [reconcile_snd_required, List.nil_append, List.filterMap_cons, List.filterMap_nil]
  by_cases h1 : (reconcileWithEnvironment env f.api "WERCKER_CF_DEPLOY_API" true []).1 = "" <;>
  by_cases h2 : (reconcileWithEnvironment env f.usr "WERCKER_CF_DEPLOY_USER" true []).1 = "" <;>
  by_cases h3 : (reconcileWithEnvironment env f.pwd "WERCKER_CF_DEPLOY_PASSWORD" true []).1 = "" <;>
  by_cases h4 : (reconcileWithEnvironment env f.org "WERCKER_CF_DEPLOY_ORG" true []).1 = "" <;>
  by_cases h5 : (reconcileWithEnvironment env f.spc "WERCKER_CF_DEPLOY_SPACE" true []).1 = "" <;>
  by_cases h6 : (reconcileWithEnvironment env f.appname "WERCKER_CF_DEPLOY_APPNAME" true []).1 = "" <;>
  simp [h1, h2, h3, h4, h5, h6]

theorem main_of_errors (f : Flags) (env : Env) (w : World)
    (h : (resolve f env).errors ≠ []) :
    main f env w
      = ⟨(resolve f env).errors.map (fun v => Event.print (v ++ "\n")), .exit 1⟩ := by
  have hl : (resolve f env).errors.length > 0 := List.length_pos.mpr h
  unfold main
  simp only [hl, if_true]

theorem main_events_ne_nil_of_no_errors (f : Flags) (env : Env) (w : World)
    (h : (resolve f env).errors = []) : (main f env w).events ≠ [] := by
  unfold main
  simp only [h, List.length_nil, gt_iff_lt, lt_self_iff_false, if_false]
  split
  · simp
  · split <;> simp

/-- C3: the resolution phase of `main` records exactly one message for each
required field whose resolved value is empty, in the order API, USER,
PASSWORD, ORG, SPACE, APPNAME, each naming the variable of its field; and
the run of `main` consists of printing these messages, one per line, and
exiting with code 1, if and only if at least one required field is missing. -/
theorem main_reports_every_missing_field (f : Flags) (env : Env) (w : World) :
    (resolve f env).errors = missingMessages f env ∧
    (main f env w
        = ⟨(missingMessages f env).map (fun v => Event.print (v ++ "\n")), .exit 1⟩
      ↔ missingMessages f env ≠ []) := by
  refine ⟨resolve_errors f env, ?_, ?_⟩
  · intro hm hnil
    have he : (resolve f env).errors = [] := by rw [resolve_errors, hnil]
    have hne := main_events_ne_nil_of_no_errors f env w he
    rw [hm, hnil] at hne
    exact hne rfl
  · intro hne
    rw [← resolve_errors] at hne ⊢
    exact main_of_errors f env w hne

/-! ## Command construction -/

theorem determinePushCommand_image (env : Env) (appname dockerImage : String)
    (errors : List String) :
    (determinePushCommand env appname dockerImage errors).2.1
      = if dockerImage = notSupplied then getenv env "WERCKER_CF_DEPLOY_DOCKER_IMAGE"
        else dockerImage := by
  unfold determinePushCommand
  simp only [apply_ite Prod.fst, apply_ite Prod.snd, ite_self, reconcile_fst]

theorem determinePushCommand_errors (env : Env) (appname dockerImage : String)
    (errors : List String) :
    (determinePushCommand env appname dockerImage errors).2.2 = errors := by
  unfold determinePushCommand
  simp only [apply_ite Prod.fst, apply_ite Prod.snd, ite_self, reconcile_snd_optional]

theorem determinePushCommand_cmd (env : Env) (appname dockerImage : String)
    (errors : List String) :
    (determinePushCommand env appname dockerImage errors).1
      = if (determinePushCommand env appname dockerImage errors).2.1 = "" then []
        else stringsSplit ("push " ++ appname ++ " -o "
          ++ (determinePushCommand env appname dockerImage errors).2.1) := by
  rw [determinePushCommand_image]
  unfold determinePushCommand
  simp only [apply_ite Prod.fst, reconcile_fst]
  by_cases h : (if dockerImage = notSupplied then getenv env "WERCKER_CF_DEPLOY_DOCKER_IMAGE"
      else dockerImage) = ""
  · have hl := (length_eq_zero_iff _).mpr h
    rw [if_pos h, if_neg (by omega)]
  · have hl : ¬ _ = 0 := fun e => h ((length_eq_zero_iff _).mp e)
    rw [if_neg h, if_pos (by omega)]

/-- C4, as the code behaves: an application name with a space is cut at the
space, so the command has five arguments and not the four of
`push <appname> -o <image>`. -/
theorem determinePushCommand_cuts_appname_at_space :
    (determinePushCommand emptyEnv "my app" "registry/myapp:latest" []).1
      = ["push", "my", "app", "-o", "registry/myapp:latest"] ∧
    (determinePushCommand emptyEnv "my app" "registry/myapp:latest" []).1
      ≠ ["push", "my app", "-o", "registry/myapp:latest"] := by
  decide

/-- When neither value holds a space the command is the intended four arguments. -/
theorem determinePushCommand_of_no_space (env : Env) (appname dockerImage : String)
    (errors : List String)
    (hi : (determinePushCommand env appname dockerImage errors).2.1 ≠ "")
    (ha : ' ' ∉ appname.data)
    (hd : ' ' ∉ (determinePushCommand env appname dockerImage errors).2.1.data) :
    (determinePushCommand env appname dockerImage errors).1
      = ["push", appname, "-o", (determinePushCommand env appname dockerImage errors).2.1] := by
  rw [determinePushCommand_cmd, if_neg hi]
  exact stringsSplit_commandString_of_no_space _ _ ha hd

/-- Whenever the application name holds a space the command is not the
intended four arguments. -/
theorem determinePushCommand_ne_of_space (env : Env) (appname dockerImage : String)
    (errors : List String)
    (hi : (determinePushCommand env appname dockerImage errors).2.1 ≠ "")
    (ha : ' ' ∈ appname.data) :
    (determinePushCommand env appname dockerImage errors).1
      ≠ ["push", appname, "-o", (determinePushCommand env appname dockerImage errors).2.1] := by
  intro h
  have hl := congrArg List.length h
  rw [determinePushCommand_cmd, if_neg hi, length_stringsSplit, spaces_commandString] at hl
  have hpos : 0 < spaces appname := List.count_pos_iff.mpr ha
  simp only [List.length_cons, List.length_nil] at hl
  omega

/-- C10: for a non-empty resolved image, joining the command with single
spaces gives back `push <appname> -o <image>`; the command has four
elements plus one for every space in the two values, and starts with `push`. -/
theorem determinePushCommand_joined (env : Env) (appname dockerImage : String)
    (errors : List String)
    (hi : (determinePushCommand env appname dockerImage errors).2.1 ≠ "") :
    stringsJoin (determinePushCommand env appname dockerImage errors).1
      = "push " ++ appname ++ " -o "
          ++ (determinePushCommand env appname dockerImage errors).2.1 ∧
    (determinePushCommand env appname dockerImage errors).1.length
      = 4 + (spaces appname
          + spaces (determinePushCommand env appname dockerImage errors).2.1) ∧
    (determinePushCommand env appname dockerImage errors).1.head? = some "push" := by
  rw [determinePushCommand_cmd, if_neg hi]
  refine ⟨stringsJoin_stringsSplit _, ?_, ?_⟩
  · rw [length_stringsSplit, spaces_commandString]
    omega
  · rw [stringsSplit_commandString]
    rfl

/-- Witness of C10: application `myapp` and image `registry/myapp:latest`. -/
theorem determinePushCommand_joined_witness :
    stringsJoin (determinePushCommand emptyEnv "myapp" "registry/myapp:latest" []).1
      = "push myapp -o registry/myapp:latest" ∧
    (determinePushCommand emptyEnv "myapp" "registry/myapp:latest" []).1.length = 4 :=
  ⟨(determinePushCommand_joined emptyEnv "myapp" "registry/myapp:latest" [] (by decide)).1,
   (determinePushCommand_joined emptyEnv "myapp" "registry/myapp:latest" [] (by decide)).2.1⟩

theorem filterMap_launchOf_relay (chunks : List Chunk) :
    (chunks.map Event.relay).filterMap launchOf = [] := by
  induction chunks with
  | nil => rfl
  | cons c cs ih => simp [launchOf]

/-- The run of `main` when the configuration is complete, the tool is
installed, the login succeeds and no command can be built. -/
theorem main_of_empty_command (f : Flags) (env : Env) (w : World)
    (herr : (resolve f env).errors = [])
    (hdl : w.download = none) (hex : w.extract = none)
    (hlp : w.login.pipeErr = none) (hls : w.login.startErr = none)
    (hlw : w.login.waitErr = none)
    (hcmd : (determinePushCommand env (resolve f env).appname (resolve f env).dockerImage
      (resolve f env).errors).1 = []) :
    main f env w
      = ⟨[Event.print "Downloading and installing CF CLI...\n",
          .run downloadCommand, .run unzipCommand,
          .print "CF CLI installed.\n", .print "Logging in to Cloud Foundry...\n",
          .stdoutPipe (loginCommand (resolve f env)), .start (loginCommand (resolve f env)),
          .drain (loginCommand (resolve f env))]
          ++ (relayed w.login.output.reads).map Event.relay
          ++ [.wait (loginCommand (resolve f env)),
              .print "Generating cf push command...\n",
              .print "Error: Push command not created.\n",
              .print ("API: " ++ (resolve f env).api ++ "\nUSR: " ++ (resolve f env).usr
                ++ "\nPWD: " ++ (resolve f env).pwd ++ "\nORG: " ++ (resolve f env).org
                ++ "\nSPC: " ++ (resolve f env).spc ++ "\n")],
        .exit 1⟩ := by
  rw [herr] at hcmd
  unfold main
  simp only [herr, List.length_nil, gt_iff_lt, lt_self_iff_false, if_false]
  simp [installCF, loginCF, buildAndDeploy, takeDump, ProcWorld.wait, hdl, hex, hlp, hls, hlw,
    hcmd, herr]

/-- C5: `determinePushCommand` returns the empty command if and only if the
resolved image reference is empty, that is the flag is the empty string, or
it is the sentinel and the image variable is unset or empty; the error list
is left as it was; and `main`, having resolved the configuration, installed
the tool and logged in, then prints the resolved fields and exits with code
1, the deploy command never being piped, started or waited for. -/
theorem determinePushCommand_empty_iff (f : Flags) (env : Env) (w : World)
    (appname : String) (errors : List String) :
    ((determinePushCommand env appname f.dockerImage errors).1 = []
      ↔ (determinePushCommand env appname f.dockerImage errors).2.1 = "") ∧
    ((determinePushCommand env appname f.dockerImage errors).2.1 = ""
      ↔ (f.dockerImage = "" ∨ (f.dockerImage = notSupplied ∧
          (env "WERCKER_CF_DEPLOY_DOCKER_IMAGE" = none ∨
            env "WERCKER_CF_DEPLOY_DOCKER_IMAGE" = some "")))) ∧
    (determinePushCommand env appname f.dockerImage errors).2.2 = errors ∧
    ((resolve f env).errors = [] → w.download = none → w.extract = none →
      w.login.pipeErr = none → w.login.startErr = none → w.login.waitErr = none →
      (determinePushCommand env (resolve f env).appname (resolve f env).dockerImage
        (resolve f env).errors).1 = [] →
      (main f env w).outcome = .exit 1 ∧
      (main f env w).events
        = [Event.print "Downloading and installing CF CLI...\n",
            .run downloadCommand, .run unzipCommand,
            .print "CF CLI installed.\n", .print "Logging in to Cloud Foundry...\n",
            .stdoutPipe (loginCommand (resolve f env)), .start (loginCommand (resolve f env)),
            .drain (loginCommand (resolve f env))]
          ++ (relayed w.login.output.reads).map Event.relay
          ++ [.wait (loginCommand (resolve f env)),
              .print "Generating cf push command...\n",
              .print "Error: Push command not created.\n",
              .print ("API: " ++ (resolve f env).api ++ "\nUSR: " ++ (resolve f env).usr
                ++ "\nPWD: " ++ (resolve f env).pwd ++ "\nORG: " ++ (resolve f env).org
                ++ "\nSPC: " ++ (resolve f env).spc ++ "\n")] ∧
      started (main f env w)
        = [downloadCommand, unzipCommand, loginCommand (resolve f env)]) := by
  refine ⟨?_, ?_, determinePushCommand_errors _ _ _ _, ?_⟩
  · constructor
    · intro h
      by_contra hne
      rw [determinePushCommand_cmd, if_neg hne] at h
      exact stringsSplit_ne_nil _ h
    · intro h
      rw [determinePushCommand_cmd, if_pos h]
  · rw [determinePushCommand_image]
    by_cases hs : f.dockerImage = notSupplied
    · rw [if_pos hs, hs]
      unfold getenv
      cases env "WERCKER_CF_DEPLOY_DOCKER_IMAGE" with
      | none => simp [notSupplied]
      | some v => simp [notSupplied]
    · rw [if_neg hs]
      simp [hs]
  · intro herr hdl hex hlp hls hlw hcmd
    have hm := main_of_empty_command f env w herr hdl hex hlp hls hlw hcmd
    refine ⟨by rw [hm], by rw [hm], ?_⟩
    rw [hm]
    simp [started, launchOf, List.filterMap_append, filterMap_launchOf_relay]

/-- Witness of C5: every field but the image is supplied and every earlier
stage succeeds; the run ends with the dump of the fields and code 1. -/
theorem determinePushCommand_empty_iff_witness :
    (main { sampleFlags with dockerImage := notSupplied } emptyEnv sampleWorld).outcome
      = .exit 1 ∧
    started (main { sampleFlags with dockerImage := notSupplied } emptyEnv sampleWorld)
      = [downloadCommand, unzipCommand,
          loginCommand (resolve { sampleFlags with dockerImage := notSupplied } emptyEnv)] :=
  ⟨((determinePushCommand_empty_iff { sampleFlags with dockerImage := notSupplied } emptyEnv
      sampleWorld "myapp" []).2.2.2 (by decide) rfl rfl rfl rfl rfl (by decide)).1,
   ((determinePushCommand_empty_iff { sampleFlags with dockerImage := notSupplied } emptyEnv
      sampleWorld "myapp" []).2.2.2 (by decide) rfl rfl rfl rfl rfl (by decide)).2.2⟩

/-! ## The stream drain, as claimed -/

/-- C8: on a pipe that delivers finitely many reads, the last one with an
error, every execution of `takeDump` that returns has printed exactly the
non-empty chunks read, in order, the chunk of the final read included, so
the text written is the concatenation of all chunks; at no point has it
printed anything else; `takeDump` does return, every step bringing it
closer and no state short of the return being stuck. -/
theorem takeDump_forwards_every_chunk (s : Stream) :
    (∀ t, DumpReaches (dumpInit (some s)) t → t.relay = .returned →
      t.out = (s.body ++ [s.last]).filter (fun c => c ≠ []) ∧
      t.out.flatten = (s.body ++ [s.last]).flatten) ∧
    (∀ t, DumpReaches (dumpInit (some s)) t →
      t.out <+: (s.body ++ [s.last]).filter (fun c => c ≠ [])) ∧
    (∃ t, DumpReaches (dumpInit (some s)) t ∧ t.relay = .returned) ∧
    (∀ t u, DumpReaches (dumpInit (some s)) t → DumpStep t u →
      dumpMeasure u < dumpMeasure t) ∧
    (∀ t, DumpReaches (dumpInit (some s)) t → t.relay ≠ .returned → dumpNext t ≠ []) ∧
    takeDump (some s) = some ((s.body ++ [s.last]).filter (fun c => c ≠ [])) := by
  have htarget : relayed s.reads = (s.body ++ [s.last]).filter (fun c => c ≠ []) :=
    relayed_reads s.body s.last
  have hinit := dumpInv_init s
  refine ⟨?_, ?_, ?_, ?_, ?_, ?_⟩
  · intro t hr hret
    have hout := dumpInv_returned _ t (dumpInv_reaches _ _ t hinit hr) hret
    rw [htarget] at hout
    exact ⟨hout, by rw [hout, flatten_filter_ne_nil]⟩
  · intro t hr
    have h1 := (dumpInv_reaches _ _ t hinit hr).out_eq
    rw [htarget, List.append_assoc] at h1
    exact ⟨_, h1⟩
  · exact dumpInv_returns _ _ _ hinit (le_refl _)
  · intro t u _ hs
    exact dumpMeasure_step t u hs
  · intro t hr hret
    exact dumpInv_progress _ t (dumpInv_reaches _ _ t hinit hr) hret
  · simp only [takeDump, Option.map_some', htarget]

/-- Witness of C8: the reads `hi`, nothing, a newline, and `!` together
with the error are printed as `hi`, the newline and `!`. -/
theorem takeDump_forwards_every_chunk_witness :
    ∃ t, DumpReaches (dumpInit (some ⟨[[104, 105], [], [10]], [33]⟩)) t ∧
      t.relay = .returned ∧ t.out = [[104, 105], [10], [33]] :=
  let h := takeDump_forwards_every_chunk ⟨[[104, 105], [], [10]], [33]⟩
  let ⟨t, hr, hret⟩ := h.2.2.1
  ⟨t, hr, hret, (h.1 t hr hret).1⟩

/-! ## The run of `main` -/

theorem launched_installCF (w : World) :
    (installCF w).1.filterMap launchOf
      = if w.download = none then [downloadCommand, unzipCommand] else [downloadCommand] := by
  unfold installCF
  cases w.download <;> cases w.extract <;> simp [launchOf]

theorem installCF_ok (w : World) :
    (installCF w).2 = true ↔ (w.download = none ∧ w.extract = none) := by
  unfold installCF
  cases w.download <;> cases w.extract <;> simp

theorem launched_loginCF (g : Globals) (w : World) :
    (loginCF g w).1.filterMap launchOf
      = if w.login.pipeErr = none then [loginCommand g] else [] := by
  unfold loginCF
  cases w.login.pipeErr <;> cases hs : w.login.startErr <;> cases hw : w.login.waitErr <;>
    simp [launchOf, takeDump, ProcWorld.wait, hs, hw, List.filterMap_append,
      filterMap_launchOf_relay]

theorem loginCF_result (g : Globals) (w : World) :
    (loginCF g w).2
      = some (decide (w.login.pipeErr = none ∧ w.login.startErr = none ∧
          w.login.waitErr = none)) := by
  unfold loginCF
  cases w.login.pipeErr <;> cases hs : w.login.startErr <;> cases hw : w.login.waitErr <;>
    simp [takeDump, ProcWorld.wait, hs, hw]

theorem launched_deployStage (cmd : List String) (p : ProcWorld) :
    (deployStage cmd p).events.filterMap launchOf = [deployCommand cmd] := by
  unfold deployStage
  cases p.pipeErr <;> cases hs : p.startErr <;> cases hw : p.waitErr <;>
    simp [launchOf, takeDump, ProcWorld.wait, hs, hw, List.filterMap_append,
      filterMap_launchOf_relay]

theorem outcome_deployStage (cmd : List String) (p : ProcWorld) :
    (deployStage cmd p).outcome
      = if p.pipeErr ≠ none then .panic
        else if p.startErr = none ∧ p.waitErr = none then .exit 0 else .exit 1 := by
  unfold deployStage
  cases p.pipeErr <;> cases hs : p.startErr <;> cases hw : p.waitErr <;>
    simp [takeDump, ProcWorld.wait, hs, hw]

theorem launched_buildAndDeploy (g : Globals) (env : Env) (w : World) :
    (buildAndDeploy g env w).events.filterMap launchOf
      = if (determinePushCommand env g.appname g.dockerImage g.errors).1 = [] then []
        else [deployCommand (determinePushCommand env g.appname g.dockerImage g.errors).1] := by
  unfold buildAndDeploy
  by_cases h : (determinePushCommand env g.appname g.dockerImage g.errors).1 = []
  · simp [h, launchOf]
  · have hl : (determinePushCommand env g.appname g.dockerImage g.errors).1.length ≠ 0 :=
      fun e => h (List.length_eq_zero.mp e)
    simp [h, hl, launchOf, List.filterMap_append, launched_deployStage]

theorem outcome_buildAndDeploy (g : Globals) (env : Env) (w : World) :
    (buildAndDeploy g env w).outcome
      = if (determinePushCommand env g.appname g.dockerImage g.errors).1 = [] then .exit 1
        else (deployStage (determinePushCommand env g.appname g.dockerImage g.errors).1
          w.deploy).outcome := by
  unfold buildAndDeploy
  by_cases h : (determinePushCommand env g.appname g.dockerImage g.errors).1 = []
  · simp [h]
  · have hl : (determinePushCommand env g.appname g.dockerImage g.errors).1.length ≠ 0 :=
      fun e => h (List.length_eq_zero.mp e)
    simp [h, hl]

/-- The commands launched by `main`, by the first stage that fails. -/
theorem started_main (f : Flags) (env : Env) (w : World) :
    started (main f env w)
      = if (resolve f env).errors ≠ [] then []
        else if w.download ≠ none then [downloadCommand]
        else if w.extract ≠ none ∨ w.login.pipeErr ≠ none then [downloadCommand, unzipCommand]
        else if w.login.startErr ≠ none ∨ w.login.waitErr ≠ none ∨
            (determinePushCommand env (resolve f env).appname (resolve f env).dockerImage
              (resolve f env).errors).1 = [] then
          [downloadCommand, unzipCommand, loginCommand (resolve f env)]
        else
          [downloadCommand, unzipCommand, loginCommand (resolve f env),
            deployCommand (determinePushCommand env (resolve f env).appname
              (resolve f env).dockerImage (resolve f env).errors).1] := by
  by_cases herr : (resolve f env).errors = []
  swap
  · rw [main_of_errors f env w herr, if_pos herr]
    simp [started, launchOf, List.filterMap_map]
  · have hi := launched_installCF w
    have hio := installCF_ok w
    have hl := launched_loginCF (resolve f env) w
    have hlo := loginCF_result (resolve f env) w
    have hb := launched_buildAndDeploy (resolve f env) env w
    rw [if_neg (not_not.mpr herr)]
    unfold main started
    simp only [herr, List.length_nil, gt_iff_lt, lt_self_iff_false, if_false]
    cases hd : w.download with
    | some e =>
      have hf : (installCF w).2 = false := by
        cases h : (installCF w).2 with
        | false => rfl
        | true => rw [hio.mp h |>.1] at hd; cases hd
      simp [hf, hd, List.filterMap_append, hi, launchOf]
    | none =>
      cases hx : w.extract with
      | some e =>
        have hf : (installCF w).2 = false := by
          cases h : (installCF w).2 with
          | false => rfl
          | true => rw [hio.mp h |>.2] at hx; cases hx
        simp [hf, hd, hx, List.filterMap_append, hi, launchOf]
      | none =>
        have ht : (installCF w).2 = true := hio.mpr ⟨hd, hx⟩
        cases hp : w.login.pipeErr with
        | some e =>
          simp [ht, hd, hx, hp, hlo, List.filterMap_append, hi, hl, launchOf]
        | none =>
          cases hs : w.login.startErr with
          | some e =>
            simp [ht, hd, hx, hp, hs, hlo, List.filterMap_append, hi, hl, launchOf]
          | none =>
            cases hw : w.login.waitErr with
            | some e =>
              simp [ht, hd, hx, hp, hs, hw, hlo, List.filterMap_append, hi, hl, launchOf]
            | none =>
              rw [herr] at hb
              by_cases hc : (determinePushCommand env (resolve f env).appname
                  (resolve f env).dockerImage []).1 = []
              · simp [ht, hd, hx, hp, hs, hw, hlo, List.filterMap_append, hi, hl, hb, hc,
                  launchOf]
              · simp [ht, hd, hx, hp, hs, hw, hlo, List.filterMap_append, hi, hl, hb, hc,
                  launchOf]

/-- How `main` ends, by the first stage that fails. -/
theorem outcome_main (f : Flags) (env : Env) (w : World) :
    (main f env w).outcome
      = if (resolve f env).errors ≠ [] ∨ w.download ≠ none ∨ w.extract ≠ none ∨
            w.login.pipeErr ≠ none ∨ w.login.startErr ≠ none ∨ w.login.waitErr ≠ none ∨
            (determinePushCommand env (resolve f env).appname (resolve f env).dockerImage
              (resolve f env).errors).1 = [] then .exit 1
        else if w.deploy.pipeErr ≠ none then .panic
        else if w.deploy.startErr = none ∧ w.deploy.waitErr = none then .exit 0
        else .exit 1 := by
  by_cases herr : (resolve f env).errors = []
  swap
  · rw [main_of_errors f env w herr]
    simp [herr]
  · have hio := installCF_ok w
    have hlo := loginCF_result (resolve f env) w
    have hb := outcome_buildAndDeploy (resolve f env) env w
    have hds := outcome_deployStage (determinePushCommand env (resolve f env).appname
      (resolve f env).dockerImage []).1 w.deploy
    unfold main
    simp only [herr, List.length_nil, gt_iff_lt, lt_self_iff_false, if_false]
    cases hd : w.download with
    | some e =>
      have hf : (installCF w).2 = false := by
        cases h : (installCF w).2 with
        | false => rfl
        | true => rw [hio.mp h |>.1] at hd; cases hd
      simp [hf]
    | none =>
      cases hx : w.extract with
      | some e =>
        have hf : (installCF w).2 = false := by
          cases h : (installCF w).2 with
          | false => rfl
          | true => rw [hio.mp h |>.2] at hx; cases hx
        simp [hf]
      | none =>
        have ht : (installCF w).2 = true := hio.mpr ⟨hd, hx⟩
        cases hp : w.login.pipeErr with
        | some e => simp [ht, hp, hlo]
        | none =>
          cases hs : w.login.startErr with
          | some e => simp [ht, hp, hs, hlo]
          | none =>
            cases hw : w.login.waitErr with
            | some e => simp [ht, hp, hs, hw, hlo]
            | none =>
              rw [herr] at hb
              by_cases hc : (determinePushCommand env (resolve f env).appname
                  (resolve f env).dockerImage []).1 = []
              · simp [ht, hp, hs, hw, hlo, hb, hc]
              · simp [ht, hp, hs, hw, hlo, hb, hc, hds]

theorem head_determinePushCommand (env : Env) (appname dockerImage : String)
    (errors : List String) :
    (determinePushCommand env appname dockerImage errors).1.head? ≠ some "login" := by
  rw [determinePushCommand_cmd]
  split
  · simp
  · rw [stringsSplit_commandString]
    simp only [List.head?_cons, ne_eq, Option.some.injEq]
    decide

theorem loginCommand_ne_deployCommand (g : Globals) (env : Env) (appname dockerImage : String)
    (errors : List String) :
    loginCommand g ≠ deployCommand (determinePushCommand env appname dockerImage errors).1 := by
  intro h
  have ha : (loginCommand g).args.head?
      = (deployCommand (determinePushCommand env appname dockerImage errors).1).args.head? := by
    rw [h]
  exact head_determinePushCommand env appname dockerImage errors ha.symm

/-- C9: the commands `main` launches are an initial part of the sequence
download, unpack, login, push, whose four commands are distinct, so none is
launched twice; nothing is launched when a required field is missing; the
download is launched only without a configuration error, the unpack only
after a successful download, the login only after a successful unpack, and
the push only after a successful login and with a non-empty command. -/
theorem main_launches_in_sequence (f : Flags) (env : Env) (w : World) :
    started (main f env w)
      <+: [downloadCommand, unzipCommand, loginCommand (resolve f env),
            deployCommand (determinePushCommand env (resolve f env).appname
              (resolve f env).dockerImage (resolve f env).errors).1] ∧
    [downloadCommand, unzipCommand, loginCommand (resolve f env),
      deployCommand (determinePushCommand env (resolve f env).appname
        (resolve f env).dockerImage (resolve f env).errors).1].Nodup ∧
    (missingMessages f env ≠ [] → started (main f env w) = []) ∧
    (0 < (started (main f env w)).length → (resolve f env).errors = []) ∧
    (1 < (started (main f env w)).length → w.download = none) ∧
    (2 < (started (main f env w)).length → w.extract = none ∧ w.login.pipeErr = none) ∧
    (3 < (started (main f env w)).length →
      w.login.startErr = none ∧ w.login.waitErr = none ∧
      (determinePushCommand env (resolve f env).appname (resolve f env).dockerImage
        (resolve f env).errors).1 ≠ []) := by
  have hne := loginCommand_ne_deployCommand (resolve f env) env (resolve f env).appname
    (resolve f env).dockerImage (resolve f env).errors
  rw [started_main, ← resolve_errors]
  refine ⟨?_, ?_, ?_, ?_, ?_, ?_, ?_⟩
  · split
    · exact List.nil_prefix
    · split
      · exact ⟨_, rfl⟩
      · split
        · exact ⟨_, rfl⟩
        · split
          · exact ⟨_, rfl⟩
          · exact List.prefix_refl _
  · simp only [List.nodup_cons, List.mem_cons, List.mem_singleton, List.not_mem_nil,
      not_false_eq_true, List.nodup_nil, and_true, not_or]
    refine ⟨⟨by decide, ?_, ?_⟩, ⟨?_, ?_⟩, hne⟩
    · simp [downloadCommand, loginCommand]
    · simp [downloadCommand, deployCommand]
    · simp [unzipCommand, loginCommand]
    · simp [unzipCommand, deployCommand]
  · intro h
    rw [if_pos h]
  · intro h
    by_contra hc
    rw [if_pos hc] at h
    simp at h
  · intro h
    by_contra hc
    revert h
    split_ifs <;> simp_all
  · intro h
    by_contra hc
    revert h
    split_ifs <;> simp_all
  · intro h
    by_contra hc
    revert h
    split_ifs <;> simp_all

/-- Witness of C9: with the API endpoint missing nothing is launched. -/
theorem main_launches_in_sequence_witness :
    started (main { sampleFlags with api := notSupplied } emptyEnv sampleWorld) = [] :=
  (main_launches_in_sequence { sampleFlags with api := notSupplied } emptyEnv sampleWorld).2.2.1
    (by decide)

/-! ## Exit codes and launch failures -/

/-- C6, as the code behaves: when every stage up to the command build
succeeds and `StdoutPipe` of the deploy command fails, `main` prints the
error, goes on to drain the nil pipe and dies in a panic; it ends neither
with `os.Exit(1)` nor with `os.Exit(0)`. -/
theorem main_panics_on_deploy_pipe_failure :
    (main sampleFlags emptyEnv pipeFailWorld).outcome = .panic ∧
    (main sampleFlags emptyEnv pipeFailWorld).outcome ≠ .exit 1 ∧
    Event.print "Error writing output to STDOUT: pipe: too many open files"
      ∈ (main sampleFlags emptyEnv pipeFailWorld).events := by
  decide

theorem reachesDeploy_iff (f : Flags) (env : Env) (w : World) :
    ReachesDeploy f env w
      ↔ ¬ ((resolve f env).errors ≠ [] ∨ w.download ≠ none ∨ w.extract ≠ none ∨
            w.login.pipeErr ≠ none ∨ w.login.startErr ≠ none ∨ w.login.waitErr ≠ none ∨
            (determinePushCommand env (resolve f env).appname (resolve f env).dockerImage
              (resolve f env).errors).1 = []) := by
  unfold ReachesDeploy
  tauto

/-- With a deploy pipe that can be obtained, `main` exits with 0 exactly
when every stage succeeds, and with 1 otherwise. -/
theorem main_exit_code_of_deploy_pipe_ok (f : Flags) (env : Env) (w : World)
    (hp : w.deploy.pipeErr = none) :
    ((main f env w).outcome = .exit 0
      ↔ (ReachesDeploy f env w ∧ w.deploy.startErr = none ∧ w.deploy.waitErr = none)) ∧
    (¬ (ReachesDeploy f env w ∧ w.deploy.startErr = none ∧ w.deploy.waitErr = none)
      → (main f env w).outcome = .exit 1) := by
  rw [outcome_main, reachesDeploy_iff]
  split
  · next hP =>
    exact ⟨⟨fun h => absurd h (by decide), fun h => absurd hP h.1⟩, fun _ => rfl⟩
  · next hP =>
    rw [if_neg (not_not.mpr hp)]
    split
    · next hQ =>
      exact ⟨⟨fun _ => ⟨hP, hQ⟩, fun _ => rfl⟩, fun h => absurd ⟨hP, hQ⟩ h⟩
    · next hQ =>
      exact ⟨⟨fun h => absurd h (by decide), fun h => absurd h.2 hQ⟩, fun _ => rfl⟩

/-- The run of `main` ends in a panic exactly when the deploy stage is
reached and the deploy pipe cannot be obtained. -/
theorem main_panics_iff (f : Flags) (env : Env) (w : World) :
    (main f env w).outcome = .panic ↔ (ReachesDeploy f env w ∧ w.deploy.pipeErr ≠ none) := by
  rw [outcome_main, reachesDeploy_iff]
  split
  · next hP =>
    exact ⟨fun h => absurd h (by decide), fun h => absurd hP h.1⟩
  · next hP =>
    split
    · next hQ => exact ⟨fun _ => ⟨hP, hQ⟩, fun _ => rfl⟩
    · next hQ =>
      constructor
      · intro h
        split at h <;> exact absurd h (by decide)
      · intro h
        exact absurd h.2 hQ

/-- C7, as the code behaves: when `Start` of the deploy command fails,
`main` prints the error and still drains the pipe and calls `Wait` on the
command that was never started. -/
theorem main_drains_and_waits_after_failed_start :
    [Event.start (deployCommand ["push", "myapp", "-o", "registry/myapp:latest"]),
      .print "Error executing command: fork/exec cf: permission denied",
      .drain (deployCommand ["push", "myapp", "-o", "registry/myapp:latest"]),
      .wait (deployCommand ["push", "myapp", "-o", "registry/myapp:latest"]),
      .print "ERROR OCCURRED: exec: not started\n"]
      <:+ (main sampleFlags emptyEnv startFailWorld).events ∧
    (main sampleFlags emptyEnv startFailWorld).outcome = .exit 1 := by
  decide

/-- The login path does report a launch failure at once: after a failed
`StdoutPipe` or `Start` it returns false without draining or waiting. -/
theorem loginCF_stops_on_launch_failure (g : Globals) (w : World)
    (h : w.login.pipeErr ≠ none ∨ w.login.startErr ≠ none) :
    (loginCF g w).2 = some false ∧
    ∀ c, Event.drain c ∉ (loginCF g w).1 ∧ Event.wait c ∉ (loginCF g w).1 := by
  unfold loginCF
  cases hp : w.login.pipeErr with
  | some e => simp
  | none =>
    cases hs : w.login.startErr with
    | some e => simp
    | none => simp [hp, hs] at h

end CfDeploy
